import Mathlib

set_option maxRecDepth 40000

/-!
Verification development for the numeric core of the crazyflie trajectory
module (`crazyflie_trajectory/modules/crazylib.py`): the linear Kalman step
`discrete_KF_update`, the asynchronous Kalman step `discrete_AKF_update`, the
sigma-point construction of `discrete_UKF_update`, and the quadcopter dynamics
model `quadcopter_dynamics`.

Modelling conventions.

* Python/numpy floats are modelled by `ℚ` for the two Kalman-filter functions
  (whose claims are about exact algebraic structure and about concrete small
  counterexamples), and by `ℝ` for the unscented filter and the dynamics model
  (which involve `math.sqrt`, `scipy.linalg.cholesky` and the matrix
  exponential of the zero-order-hold discretisation).
* The filters are used with one-dimensional numpy arrays for `x`, `u`, `z`
  (the only shape assignment under which the code's `np.dot` calls are
  dimension-consistent for `M > 1`); `np.transpose` of a one-dimensional
  array is the identity, so the transposes on lines 51 and 53 of the source
  disappear in the embedding.
* A Python float that may be NaN is modelled by `Option ℚ` (`none` = NaN);
  IEEE arithmetic propagates NaN through every sum and product with it, which
  is what the `Option`-lifted operations below do.
* `B` and `u` may each be a numpy array, the empty list `[]`, or `None`; the
  three-way distinction matters because the code tests `B == [] or u == []`
  (which is `False` for `None`) and then calls `np.dot(B, u)`, which raises
  `TypeError` when either is `None`.  This is modelled by `PyArg`.
* Exceptions are modelled by `Except KFerr`: `scipy.linalg.inv` raises the
  library's (unclassified) `LinAlgError` on an exactly singular matrix, and
  `np.dot` on `None` raises `TypeError`.  The error kinds named by the spec
  (`SingularInnovationCovariance`, `NonPositiveDefiniteCovariance`) are also
  constructors of `KFerr` so that statements about them can be written; the
  code never produces them.
* `discrete_AKF_update` mutates state that is not among its pure inputs: it
  updates the caller's `zhist` buffer in place (slice assignment and the
  `zpred[1] = ...` writes) and it reads the process-global numpy random
  generator (`np.random.randn`).  Both are made explicit state: the returned
  history component models the contents of the caller's buffer after the call
  (the code returns the very object it mutated), and the random stream is an
  explicit argument `randn : ℕ → ℚ` giving the sample drawn at each loop
  iteration.
-/

open scoped Matrix

namespace Crazylib

/-- Decidable equality for `Option` whose positive case is built with
`congrArg` rather than a transport, so that concrete comparisons evaluate by
unfolding alone. -/
instance (priority := 2000) optionDecEqNoRec {α : Type} [DecidableEq α] :
    DecidableEq (Option α)
  | Option.none, Option.none => isTrue rfl
  | Option.none, Option.some _ => isFalse fun h => Option.noConfusion h
  | Option.some _, Option.none => isFalse fun h => Option.noConfusion h
  | Option.some a, Option.some b =>
      match decEq a b with
      | isTrue h => isTrue (congrArg Option.some h)
      | isFalse h => isFalse fun hh => h (Option.some.inj hh)

/-- Decidable equality for `Except`, transport-free for the same reason. -/
instance (priority := 2000) exceptDecEqNoRec {ε α : Type} [DecidableEq ε] [DecidableEq α] :
    DecidableEq (Except ε α)
  | Except.error a, Except.error b =>
      match decEq a b with
      | isTrue h => isTrue (congrArg Except.error h)
      | isFalse h => isFalse fun hh => h (Except.error.inj hh)
  | Except.error _, Except.ok _ => isFalse fun h => Except.noConfusion h
  | Except.ok _, Except.error _ => isFalse fun h => Except.noConfusion h
  | Except.ok a, Except.ok b =>
      match decEq a b with
      | isTrue h => isTrue (congrArg Except.ok h)
      | isFalse h => isFalse fun hh => h (Except.ok.inj hh)

/-- Python-level argument that may be a numpy array, the literal empty list
`[]`, or `None` (used for the control signal `u` and the matrix `B`). -/
inductive PyArg (α : Type) where
  | none : PyArg α
  | emptyList : PyArg α
  | arr : α → PyArg α
deriving DecidableEq

/-- Test used by `if B == [] or u == []`: Python `== []` is `True` exactly for
the literal empty list (`None == []` is `False`, and comparing a nonempty
numpy array with `[]` evaluates falsy). -/
def PyArg.isEmptyList {α : Type} : PyArg α → Bool
  | .emptyList => true
  | _ => false

/-- Exceptions of the embedded code, plus the error kinds that the spec's
error taxonomy names (never produced by the code). -/
inductive KFerr where
  | typeError : KFerr
  | linAlgError : KFerr
  | singularInnovationCovariance : KFerr
  | nonPositiveDefiniteCovariance : KFerr
  | dimensionMismatch : KFerr
deriving DecidableEq

/-- A vector of Python floats, each possibly NaN (`none`). -/
def OVec (k : ℕ) : Type := Fin k → Option ℚ

instance (k : ℕ) : DecidableEq (OVec k) := by
  unfold OVec; infer_instance

instance (k : ℕ) : Inhabited (OVec k) := by
  unfold OVec; infer_instance

/-- A NaN-free vector of Python floats. -/
def someVec {k : ℕ} (v : Fin k → ℚ) : OVec k := fun i => some (v i)

/-- Recover the rational vector underneath an `OVec` if no component is NaN. -/
def liftVec {k : ℕ} (x : OVec k) : Option (Fin k → ℚ) :=
  if h : ∀ j, (x j).isSome then some (fun j => (x j).get (h j)) else none

/-- Matrix–vector product with IEEE NaN propagation: every component of the
result is a sum over all components of `x`, so a single NaN input component
makes every output component NaN. -/
def omulVec {m n : ℕ} (A : Matrix (Fin m) (Fin n) ℚ) (x : OVec n) : OVec m :=
  fun i => (liftVec x).map (fun v => A.mulVec v i)

/-- Componentwise sum with NaN propagation. -/
def oadd {m : ℕ} (x y : OVec m) : OVec m := fun i =>
  match x i, y i with
  | some a, some b => some (a + b)
  | _, _ => Option.none

/-- Componentwise difference with NaN propagation. -/
def osub {m : ℕ} (x y : OVec m) : OVec m := fun i =>
  match x i, y i with
  | some a, some b => some (a - b)
  | _, _ => Option.none

/-- Executable determinant by Laplace expansion along column 0 (the shape of
`Matrix.det_succ_column_zero`), written with `Nat.rec` so that it evaluates
definitionally on concrete matrices. -/
def detQ : {n : ℕ} → Matrix (Fin n) (Fin n) ℚ → ℚ :=
  fun {n} =>
    Nat.rec (motive := fun k => Matrix (Fin k) (Fin k) ℚ → ℚ)
      (fun _ => 1)
      (fun k ih M =>
        ∑ i : Fin (k + 1), (-1 : ℚ) ^ (i : ℕ) * M i 0 * ih (M.submatrix i.succAbove Fin.succ))
      n

theorem detQ_succ {n : ℕ} (M : Matrix (Fin (n + 1)) (Fin (n + 1)) ℚ) :
    detQ M = ∑ i : Fin (n + 1),
      (-1 : ℚ) ^ (i : ℕ) * M i 0 * detQ (M.submatrix i.succAbove Fin.succ) := rfl

/-- Executable adjugate, entrywise by the characterisation
`Matrix.adjugate_apply`. -/
def adjQ {n : ℕ} (M : Matrix (Fin n) (Fin n) ℚ) : Matrix (Fin n) (Fin n) ℚ :=
  Matrix.of fun i j => detQ (M.updateRow j (Pi.single i 1))

/-- Executable model of `scipy.linalg.inv` on an invertible matrix: the true
inverse, computed as `det⁻¹ • adjugate` (the caller checks singularity and
raises `LinAlgError` separately, as the code path does). -/
def invQ {n : ℕ} (M : Matrix (Fin n) (Fin n) ℚ) : Matrix (Fin n) (Fin n) ℚ :=
  (detQ M)⁻¹ • adjQ M

theorem detQ_eq : ∀ {n : ℕ} (M : Matrix (Fin n) (Fin n) ℚ), detQ M = M.det := by
  intro n
  induction n with
  | zero =>
      intro M
      rw [show detQ M = 1 from rfl, Matrix.det_fin_zero]
  | succ n ih =>
      intro M
      rw [Matrix.det_succ_column_zero, detQ_succ]
      exact Finset.sum_congr rfl fun i _ => by rw [ih]

theorem adjQ_eq {n : ℕ} (M : Matrix (Fin n) (Fin n) ℚ) : adjQ M = M.adjugate := by
  funext i j
  rw [Matrix.adjugate_apply]
  rw [show adjQ M i j = detQ (M.updateRow j (Pi.single i 1)) from rfl, detQ_eq]

theorem invQ_eq_inv {n : ℕ} (M : Matrix (Fin n) (Fin n) ℚ) : invQ M = M⁻¹ := by
  rw [invQ, adjQ_eq, detQ_eq, Matrix.inv_def, Ring.inverse_eq_inv]

/-- Embedding of `discrete_KF_update(x, u, z, A, B, C, P, Q, R)`
(crazylib.py lines 49–66).  `z = none` models the Python call with `z=None`.
The transposes of the source act on one-dimensional arrays and are dropped.
The result is the pair `(xhat, Pnew)`, or the exception the call raises. -/
def discrete_KF_update {m n kk : ℕ} (x : OVec m) (u : PyArg (Fin n → ℚ))
    (z : Option (OVec kk)) (A : Matrix (Fin m) (Fin m) ℚ)
    (B : PyArg (Matrix (Fin m) (Fin n) ℚ)) (C : Matrix (Fin kk) (Fin m) ℚ)
    (P Q : Matrix (Fin m) (Fin m) ℚ) (R : Matrix (Fin kk) (Fin kk) ℚ) :
    Except KFerr (OVec m × Matrix (Fin m) (Fin m) ℚ) :=
  -- Kalman prediction: `if B == [] or u == []: xf = A·x else xf = A·x + B·u`,
  -- where `np.dot(B, u)` raises `TypeError` if either operand is `None`.
  match (if B.isEmptyList || u.isEmptyList then Except.ok (omulVec A x)
         else match B, u with
           | .arr Bm, .arr uv => Except.ok (oadd (omulVec A x) (someVec (Bm.mulVec uv)))
           | _, _ => Except.error KFerr.typeError : Except KFerr (OVec m)) with
  | .error e => .error e
  | .ok xf =>
    let Pf := A * P * Aᵀ + Q
    -- Kalman update, only when z is not None.
    match z with
    | some zv =>
        let Knum := Pf * Cᵀ
        let Kden := C * (Pf * Cᵀ) + R
        if detQ Kden = 0 then .error KFerr.linAlgError
        else
          let K := Knum * invQ Kden
          .ok (oadd xf (omulVec K (osub zv (omulVec C xf))),
               (1 - K * C) * Pf)
    | none => .ok (xf, Pf)

theorem liftVec_someVec {k : ℕ} (v : Fin k → ℚ) : liftVec (someVec v) = some v := by
  rw [liftVec, dif_pos]
  · exact congrArg some (funext fun j => rfl)
  · intro j; rfl

theorem omulVec_someVec {m n : ℕ} (M : Matrix (Fin m) (Fin n) ℚ) (v : Fin n → ℚ) :
    omulVec M (someVec v) = someVec (M.mulVec v) := by
  funext i
  rw [omulVec, liftVec_someVec]
  rfl

theorem oadd_someVec {m : ℕ} (a b : Fin m → ℚ) :
    oadd (someVec a) (someVec b) = someVec (a + b) := rfl

theorem osub_someVec {m : ℕ} (a b : Fin m → ℚ) :
    osub (someVec a) (someVec b) = someVec (a - b) := rfl

/-- Predicted covariance as the spec words it: `P_f = A·P·Aᵗ + Q`. -/
def specPf {m : ℕ} (A P Q : Matrix (Fin m) (Fin m) ℚ) : Matrix (Fin m) (Fin m) ℚ :=
  A * P * Aᵀ + Q

/-- Innovation covariance as the spec words it: `S = C·P_f·Cᵗ + R`. -/
def specS {m kk : ℕ} (A : Matrix (Fin m) (Fin m) ℚ) (C : Matrix (Fin kk) (Fin m) ℚ)
    (P Q : Matrix (Fin m) (Fin m) ℚ) (R : Matrix (Fin kk) (Fin kk) ℚ) :
    Matrix (Fin kk) (Fin kk) ℚ :=
  C * specPf A P Q * Cᵀ + R

/-- Gain as the spec words it: `K = P_f·Cᵗ·S⁻¹` (with the mathematical matrix
inverse). -/
noncomputable def specK {m kk : ℕ} (A : Matrix (Fin m) (Fin m) ℚ)
    (C : Matrix (Fin kk) (Fin m) ℚ) (P Q : Matrix (Fin m) (Fin m) ℚ)
    (R : Matrix (Fin kk) (Fin kk) ℚ) : Matrix (Fin m) (Fin kk) ℚ :=
  specPf A P Q * Cᵀ * (specS A C P Q R)⁻¹

/-- Updated estimate as the spec words it: `x̂ = x_f + K·(z − C·x_f)`. -/
noncomputable def specXhat {m kk : ℕ} (A : Matrix (Fin m) (Fin m) ℚ)
    (C : Matrix (Fin kk) (Fin m) ℚ) (P Q : Matrix (Fin m) (Fin m) ℚ)
    (R : Matrix (Fin kk) (Fin kk) ℚ) (xf : Fin m → ℚ) (z : Fin kk → ℚ) : Fin m → ℚ :=
  xf + (specK A C P Q R).mulVec (z - C.mulVec xf)

/-- Updated covariance as the spec words it: `P_new = (I − K·C)·P_f`. -/
noncomputable def specPnew {m kk : ℕ} (A : Matrix (Fin m) (Fin m) ℚ)
    (C : Matrix (Fin kk) (Fin m) ℚ) (P Q : Matrix (Fin m) (Fin m) ℚ)
    (R : Matrix (Fin kk) (Fin kk) ℚ) : Matrix (Fin m) (Fin m) ℚ :=
  (1 - specK A C P Q R * C) * specPf A P Q

/-- Claim C1: with a measurement provided, `discrete_KF_update` returns exactly the
spec's predict/update formulas: `x_f = A·x` (plus `B·u` when both are supplied
as arrays), `P_f = A·P·Aᵗ + Q`, `S = C·P_f·Cᵗ + R`, `K = P_f·Cᵗ·S⁻¹`,
`x̂ = x_f + K·(z − C·x_f)`, `P_new = (I − K·C)·P_f`.  The hypothesis is the
invertibility of the innovation covariance that the spec's `S⁻¹` presupposes. -/
theorem C1_discrete_KF_update_matches_spec {m n kk : ℕ} (x : Fin m → ℚ) (u : Fin n → ℚ)
    (z : Fin kk → ℚ) (A : Matrix (Fin m) (Fin m) ℚ) (B : Matrix (Fin m) (Fin n) ℚ)
    (C : Matrix (Fin kk) (Fin m) ℚ) (P Q : Matrix (Fin m) (Fin m) ℚ)
    (R : Matrix (Fin kk) (Fin kk) ℚ)
    (hS : detQ (C * ((A * P * Aᵀ + Q) * Cᵀ) + R) ≠ 0) :
    discrete_KF_update (someVec x) (PyArg.arr u) (some (someVec z)) A (PyArg.arr B) C P Q R
      = Except.ok (someVec (specXhat A C P Q R (A.mulVec x + B.mulVec u) z),
                   specPnew A C P Q R)
  ∧ discrete_KF_update (someVec x) (PyArg.emptyList : PyArg (Fin n → ℚ))
        (some (someVec z)) A (PyArg.emptyList : PyArg (Matrix (Fin m) (Fin n) ℚ)) C P Q R
      = Except.ok (someVec (specXhat A C P Q R (A.mulVec x) z), specPnew A C P Q R) := by
  constructor
  · have h1 : discrete_KF_update (someVec x) (PyArg.arr u) (some (someVec z)) A
        (PyArg.arr B) C P Q R
        = if detQ (C * ((A * P * Aᵀ + Q) * Cᵀ) + R) = 0 then Except.error KFerr.linAlgError
          else Except.ok
            (oadd (oadd (omulVec A (someVec x)) (someVec (B.mulVec u)))
              (omulVec ((A * P * Aᵀ + Q) * Cᵀ * invQ (C * ((A * P * Aᵀ + Q) * Cᵀ) + R))
                (osub (someVec z)
                  (omulVec C (oadd (omulVec A (someVec x)) (someVec (B.mulVec u)))))),
             (1 - (A * P * Aᵀ + Q) * Cᵀ * invQ (C * ((A * P * Aᵀ + Q) * Cᵀ) + R) * C)
               * (A * P * Aᵀ + Q)) := rfl
    rw [h1, if_neg hS]
    simp only [omulVec_someVec, oadd_someVec, osub_someVec, omulVec_someVec]
    simp only [specXhat, specPnew, specK, specS, specPf, invQ_eq_inv, Matrix.mul_assoc]
  · have h1 : discrete_KF_update (someVec x) (PyArg.emptyList : PyArg (Fin n → ℚ))
        (some (someVec z)) A (PyArg.emptyList : PyArg (Matrix (Fin m) (Fin n) ℚ)) C P Q R
        = if detQ (C * ((A * P * Aᵀ + Q) * Cᵀ) + R) = 0 then Except.error KFerr.linAlgError
          else Except.ok
            (oadd (omulVec A (someVec x))
              (omulVec ((A * P * Aᵀ + Q) * Cᵀ * invQ (C * ((A * P * Aᵀ + Q) * Cᵀ) + R))
                (osub (someVec z) (omulVec C (omulVec A (someVec x))))),
             (1 - (A * P * Aᵀ + Q) * Cᵀ * invQ (C * ((A * P * Aᵀ + Q) * Cᵀ) + R) * C)
               * (A * P * Aᵀ + Q)) := rfl
    rw [h1, if_neg hS]
    simp only [omulVec_someVec, oadd_someVec, osub_someVec, omulVec_someVec]
    simp only [specXhat, specPnew, specK, specS, specPf, invQ_eq_inv, Matrix.mul_assoc]

/-- Witness for C1 at a concrete scalar system. -/
theorem C1_witness :
    detQ (!![(1:ℚ)] * ((!![(1:ℚ)] * !![(1:ℚ)] * !![(1:ℚ)]ᵀ + !![(1:ℚ)]) * !![(1:ℚ)]ᵀ)
        + !![(1:ℚ)]) ≠ 0
  ∧ discrete_KF_update (someVec ![(1:ℚ)]) (PyArg.arr ![(1:ℚ)]) (some (someVec ![(3:ℚ)]))
      !![(1:ℚ)] (PyArg.arr !![(1:ℚ)]) !![(1:ℚ)] !![(1:ℚ)] !![(1:ℚ)] !![(1:ℚ)]
      = Except.ok
          (someVec (specXhat !![(1:ℚ)] !![(1:ℚ)] !![(1:ℚ)] !![(1:ℚ)] !![(1:ℚ)]
            (!![(1:ℚ)].mulVec ![(1:ℚ)] + !![(1:ℚ)].mulVec ![(1:ℚ)]) ![(3:ℚ)]),
           specPnew !![(1:ℚ)] !![(1:ℚ)] !![(1:ℚ)] !![(1:ℚ)] !![(1:ℚ)]) :=
  ⟨by with_unfolding_all decide,
   (C1_discrete_KF_update_matches_spec ![(1:ℚ)] ![(1:ℚ)] ![(3:ℚ)] !![(1:ℚ)] !![(1:ℚ)]
      !![(1:ℚ)] !![(1:ℚ)] !![(1:ℚ)] !![(1:ℚ)] (by with_unfolding_all decide)).1⟩

/-- Claim C3 (amended): with `z = None` the step is predict-only: it never
reads `C` or `R` (for any `B`, `u`, including `None`), and whenever `B` and
`u` are arrays or the empty list it returns exactly
`(A·x (+ B·u when both are arrays), A·P·Aᵗ + Q)`.  When `B` or `u` is `None`
the call instead raises, see the counterexample. -/
theorem C3_predict_only {m n kk : ℕ} (x : Fin m → ℚ) (xO : OVec m)
    (u : PyArg (Fin n → ℚ)) (B : PyArg (Matrix (Fin m) (Fin n) ℚ))
    (uv : Fin n → ℚ) (Bm : Matrix (Fin m) (Fin n) ℚ)
    (A : Matrix (Fin m) (Fin m) ℚ) (P Q : Matrix (Fin m) (Fin m) ℚ)
    (C C' : Matrix (Fin kk) (Fin m) ℚ) (R R' : Matrix (Fin kk) (Fin kk) ℚ) :
    discrete_KF_update xO u none A B C P Q R = discrete_KF_update xO u none A B C' P Q R'
  ∧ discrete_KF_update (someVec x) (PyArg.arr uv) none A (PyArg.arr Bm) C P Q R
      = Except.ok (someVec (A.mulVec x + Bm.mulVec uv), A * P * Aᵀ + Q)
  ∧ discrete_KF_update (someVec x) u none A PyArg.emptyList C P Q R
      = Except.ok (someVec (A.mulVec x), A * P * Aᵀ + Q)
  ∧ discrete_KF_update (someVec x) PyArg.emptyList none A B C P Q R
      = Except.ok (someVec (A.mulVec x), A * P * Aᵀ + Q) := by
  refine ⟨?_, ?_, ?_, ?_⟩
  · cases B <;> cases u <;> rfl
  · have h1 : discrete_KF_update (someVec x) (PyArg.arr uv) none A (PyArg.arr Bm) C P Q R
        = Except.ok (oadd (omulVec A (someVec x)) (someVec (Bm.mulVec uv)),
            A * P * Aᵀ + Q) := rfl
    rw [h1, omulVec_someVec, oadd_someVec]
  · cases u <;>
      simp only [discrete_KF_update, PyArg.isEmptyList, Bool.or_true, Bool.or_false,
        Bool.true_or, Bool.or_self, if_true, omulVec_someVec]
  · cases B <;>
      simp only [discrete_KF_update, PyArg.isEmptyList, Bool.or_true, Bool.or_false,
        Bool.true_or, Bool.or_self, if_true, omulVec_someVec]

/-- Counterexample for C3 as stated: a predict-only call (`z = None`) with
`u = None` does not return the pure predict formula `(A·x, A·P·Aᵗ + Q)`; it
raises `TypeError` in `np.dot(B, u)`. -/
theorem C3_counterexample :
    discrete_KF_update (someVec ![(3:ℚ)]) PyArg.none none !![(2:ℚ)] (PyArg.arr !![(1:ℚ)])
        !![(1:ℚ)] !![(1:ℚ)] !![(1:ℚ)] !![(1:ℚ)] = Except.error KFerr.typeError
  ∧ (Except.error KFerr.typeError : Except KFerr (OVec 1 × Matrix (Fin 1) (Fin 1) ℚ))
      ≠ Except.ok (someVec (!![(2:ℚ)].mulVec ![(3:ℚ)]),
          !![(2:ℚ)] * !![(1:ℚ)] * !![(2:ℚ)]ᵀ + !![(1:ℚ)]) := by
  constructor
  · rfl
  · with_unfolding_all decide

/-- Claim C4: the claim (and the docstring, whose `:type u:` allows `None`)
says `B = None` or `u = None` skips the control term, but the code only tests
`B == [] or u == []`, which is `False` for `None`; it then evaluates
`np.dot(B, u)` and raises `TypeError`.  Only the empty-list spelling skips
the control term. -/
theorem C4_control_none_raises :
    discrete_KF_update (someVec ![(0:ℚ)]) PyArg.none none !![(1:ℚ)] (PyArg.arr !![(1:ℚ)])
        !![(1:ℚ)] !![(1:ℚ)] !![(1:ℚ)] !![(1:ℚ)] = Except.error KFerr.typeError
  ∧ discrete_KF_update (someVec ![(0:ℚ)]) (PyArg.arr ![(1:ℚ)]) none !![(1:ℚ)] PyArg.none
        !![(1:ℚ)] !![(1:ℚ)] !![(1:ℚ)] !![(1:ℚ)] = Except.error KFerr.typeError
  ∧ discrete_KF_update (someVec ![(0:ℚ)]) PyArg.emptyList none !![(1:ℚ)]
        (PyArg.arr !![(1:ℚ)]) !![(1:ℚ)] !![(1:ℚ)] !![(1:ℚ)] !![(1:ℚ)]
      = Except.ok (someVec (!![(1:ℚ)].mulVec ![(0:ℚ)]),
          !![(1:ℚ)] * !![(1:ℚ)] * !![(1:ℚ)]ᵀ + !![(1:ℚ)]) := by
  refine ⟨rfl, rfl, ?_⟩
  have h1 : discrete_KF_update (someVec ![(0:ℚ)]) PyArg.emptyList none !![(1:ℚ)]
      (PyArg.arr !![(1:ℚ)]) !![(1:ℚ)] !![(1:ℚ)] !![(1:ℚ)] !![(1:ℚ)]
      = Except.ok (omulVec !![(1:ℚ)] (someVec ![(0:ℚ)]),
          !![(1:ℚ)] * !![(1:ℚ)] * !![(1:ℚ)]ᵀ + !![(1:ℚ)]) := rfl
  rw [h1, omulVec_someVec]

/-- Claim C8 (amended): the code performs no precondition checks; an exactly
singular innovation covariance makes `scipy.linalg.inv` raise the library's
unclassified `LinAlgError`, not a classified `SingularInnovationCovariance`. -/
theorem C8_amended_unclassified_error {m n kk : ℕ} (x : OVec m) (u : PyArg (Fin n → ℚ))
    (z : OVec kk) (A : Matrix (Fin m) (Fin m) ℚ) (B : PyArg (Matrix (Fin m) (Fin n) ℚ))
    (C : Matrix (Fin kk) (Fin m) ℚ) (P Q : Matrix (Fin m) (Fin m) ℚ)
    (R : Matrix (Fin kk) (Fin kk) ℚ)
    (hempty : (B.isEmptyList || u.isEmptyList) = true)
    (hS : detQ (C * ((A * P * Aᵀ + Q) * Cᵀ) + R) = 0) :
    discrete_KF_update x u (some z) A B C P Q R = Except.error KFerr.linAlgError
  ∧ KFerr.linAlgError ≠ KFerr.singularInnovationCovariance := by
  constructor
  · simp only [discrete_KF_update, hempty, if_true, hS, if_pos]
  · decide

/-- Counterexample for C8 as stated: at a concrete call with singular `S` the
code yields the unclassified `LinAlgError`, not `SingularInnovationCovariance`. -/
theorem C8_counterexample :
    discrete_KF_update (someVec ![(1:ℚ)]) (PyArg.emptyList : PyArg (Fin 1 → ℚ))
        (some (someVec ![(1:ℚ)])) !![(1:ℚ)]
        (PyArg.emptyList : PyArg (Matrix (Fin 1) (Fin 1) ℚ))
        !![(0:ℚ)] !![(1:ℚ)] !![(1:ℚ)] !![(0:ℚ)]
      = Except.error KFerr.linAlgError
  ∧ KFerr.linAlgError ≠ KFerr.singularInnovationCovariance := by
  constructor
  · with_unfolding_all rfl
  · decide

/-- Witness for the amended C8 at a second concrete singular system. -/
theorem C8_witness :
    detQ (!![(0:ℚ)] * ((!![(2:ℚ)] * !![(3:ℚ)] * !![(2:ℚ)]ᵀ + !![(1:ℚ)]) * !![(0:ℚ)]ᵀ)
        + !![(0:ℚ)]) = 0
  ∧ discrete_KF_update (someVec ![(5:ℚ)]) (PyArg.emptyList : PyArg (Fin 1 → ℚ))
      (some (someVec ![(7:ℚ)])) !![(2:ℚ)]
      (PyArg.emptyList : PyArg (Matrix (Fin 1) (Fin 1) ℚ))
      !![(0:ℚ)] !![(3:ℚ)] !![(1:ℚ)] !![(0:ℚ)]
      = Except.error KFerr.linAlgError :=
  ⟨by with_unfolding_all rfl,
   (C8_amended_unclassified_error (someVec ![(5:ℚ)]) (PyArg.emptyList : PyArg (Fin 1 → ℚ))
      (someVec ![(7:ℚ)]) !![(2:ℚ)] (PyArg.emptyList : PyArg (Matrix (Fin 1) (Fin 1) ℚ))
      !![(0:ℚ)] !![(3:ℚ)] !![(1:ℚ)] !![(0:ℚ)] rfl (by with_unfolding_all rfl)).1⟩

/-- The re-propagation loop of `discrete_AKF_update` (crazylib.py lines
126–129), one recursive step per index `ii` of `range(len(zhist)-1)`.  The
loop state is `(xpred, Ppred, buffer)` where `buffer` models the contents of
the caller's `zhist` object, which the loop mutates: `zpred = zhist[ii+1]`
aliases the buffer slot, `zpred[1] = trajectory(t + (1+ii-W)*Ts) +
np.dot(np.random.randn(1), R[1,1])[0]` overwrites component 1 of that very
slot, and the subsequent Kalman step reads the mutated slot. -/
def akf_loop {m n kk : ℕ} [NeZero kk] (u : PyArg (Fin n → ℚ))
    (A : Matrix (Fin m) (Fin m) ℚ) (B : PyArg (Matrix (Fin m) (Fin n) ℚ))
    (C : Matrix (Fin kk) (Fin m) ℚ) (Q : Matrix (Fin m) (Fin m) ℚ)
    (R : Matrix (Fin kk) (Fin kk) ℚ) (trajectory : ℚ → ℚ) (t Ts : ℚ) (randn : ℕ → ℚ) :
    List ℕ → OVec m × Matrix (Fin m) (Fin m) ℚ × List (OVec kk) →
      Except KFerr (OVec m × Matrix (Fin m) (Fin m) ℚ × List (OVec kk))
  | [], st => Except.ok st
  | ii :: rest, (xpred, Ppred, buf) =>
      let zpred := Function.update (buf.getD (ii + 1) (fun _ => Option.none)) 1
        (some (trajectory (t + (((1 + ii : ℕ) : ℚ) - (buf.length : ℚ)) * Ts)
          + randn ii * R 1 1))
      match discrete_KF_update xpred u (some zpred) A B C Ppred Q R with
      | .error e => .error e
      | .ok (xp, Pp) =>
          akf_loop u A B C Q R trajectory t Ts randn rest (xp, Pp, buf.set (ii + 1) zpred)

/-- Embedding of `discrete_AKF_update(x, u, z, zhist, A, B, C, P, Q, R,
trajectory, t, Ts)` (crazylib.py lines 70–131).  The history is a list of
measurement vectors; the slice assignment `zhist[0:-1] = zhist[1:];
zhist[-1] = z` shifts it left and inserts `z` at the tail, in place.  The
missing-measurement test is `np.isnan(zhist[0][0])` on the head slot after
the shift.  The synchronised update uses `zhist[-1]` (the newly inserted
measurement).  The extra argument `randn` makes the process-global numpy
random generator explicit: `randn ii` is the `np.random.randn(1)[0]` sample
drawn in loop iteration `ii`.  The returned history component models the
contents of the caller's buffer after the call. -/
def discrete_AKF_update {m n kk : ℕ} [NeZero kk] (x : Fin m → ℚ)
    (u : PyArg (Fin n → ℚ)) (z : OVec kk) (zhist : List (OVec kk))
    (A : Matrix (Fin m) (Fin m) ℚ) (B : PyArg (Matrix (Fin m) (Fin n) ℚ))
    (C : Matrix (Fin kk) (Fin m) ℚ) (P Q : Matrix (Fin m) (Fin m) ℚ)
    (R : Matrix (Fin kk) (Fin kk) ℚ) (trajectory : ℚ → ℚ) (t Ts : ℚ)
    (randn : ℕ → ℚ) :
    Except KFerr (OVec m × OVec m × Matrix (Fin m) (Fin m) ℚ × List (OVec kk)) :=
  -- Updates zhistory vector (in place; `zh` is the buffer after the shift).
  let zh := zhist.tail ++ [z]
  -- Updates the covariance with the most recent synchronized measurement.
  if (zh.headI 0).isNone then
    Except.ok (someVec x, someVec x, P, zh)
  else
    match discrete_KF_update (someVec x) u (some (zh.getLastD (fun _ => Option.none)))
        A B C P Q R with
    | .error e => .error e
    | .ok (xhat, P1) =>
        -- Predicts what the future state will look like based on current data.
        match akf_loop u A B C Q R trajectory t Ts randn
            (List.range (zh.length - 1)) (xhat, P1, zh) with
        | .error e => .error e
        | .ok (xpred, _, buf) => Except.ok (xhat, xpred, P1, buf)

/-- Claim C5: when the head of the shifted history is the NaN sentinel, the
correction is skipped entirely: `x̂ = x_pred = x` and `P` is returned
unchanged (the buffer itself has still been shifted). -/
theorem C5_missing_head_skips_update {m n kk : ℕ} [NeZero kk] (x : Fin m → ℚ)
    (u : PyArg (Fin n → ℚ)) (z : OVec kk) (zhist : List (OVec kk))
    (A : Matrix (Fin m) (Fin m) ℚ) (B : PyArg (Matrix (Fin m) (Fin n) ℚ))
    (C : Matrix (Fin kk) (Fin m) ℚ) (P Q : Matrix (Fin m) (Fin m) ℚ)
    (R : Matrix (Fin kk) (Fin kk) ℚ) (trajectory : ℚ → ℚ) (t Ts : ℚ)
    (randn : ℕ → ℚ)
    (h : ((zhist.tail ++ [z]).headI : OVec kk) 0 = Option.none) :
    discrete_AKF_update x u z zhist A B C P Q R trajectory t Ts randn
      = Except.ok (someVec x, someVec x, P, zhist.tail ++ [z]) := by
  have hcond : (((zhist.tail ++ [z]).headI : OVec kk) 0).isNone = true := by
    rw [h]; rfl
  simp only [discrete_AKF_update, hcond, if_true]

/-- Concrete inputs shared by the asynchronous-filter theorems: a scalar
state (`M = 1`), two-component measurements (`K = 2`), no control, a history
window of length `W = 2`. -/
def exA : Matrix (Fin 1) (Fin 1) ℚ := !![1]

/-- Measurement matrix of the shared concrete inputs. -/
def exC : Matrix (Fin 2) (Fin 1) ℚ := !![1; 1]

/-- Initial covariance of the shared concrete inputs. -/
def exP : Matrix (Fin 1) (Fin 1) ℚ := !![1]

/-- Process noise of the shared concrete inputs. -/
def exQ : Matrix (Fin 1) (Fin 1) ℚ := !![0]

/-- Measurement noise of the shared concrete inputs. -/
def exR : Matrix (Fin 2) (Fin 2) ℚ := !![1, 0; 0, 1]

/-- State of the shared concrete inputs. -/
def exX : Fin 1 → ℚ := ![0]

/-- History buffer of the shared concrete inputs (both entries present). -/
def exHist : List (OVec 2) := [someVec ![5, 5], someVec ![10, 10]]

/-- Incoming measurement of the shared concrete inputs. -/
def exZ : OVec 2 := someVec ![0, 0]

/-- A second incoming measurement, with a nonzero component 1. -/
def exZ7 : OVec 2 := someVec ![0, 7]

/-- Control argument of the shared concrete inputs (empty list). -/
def exU : PyArg (Fin 1 → ℚ) := PyArg.emptyList

/-- Control matrix argument of the shared concrete inputs (empty list). -/
def exB : PyArg (Matrix (Fin 1) (Fin 1) ℚ) := PyArg.emptyList

/-- Reference trajectory of the shared concrete inputs. -/
def exTraj : ℚ → ℚ := fun _ => 0

/-- Witness inputs for C5: the surviving (oldest) history entry is the NaN
vector, so after the shift the head is marked missing. -/
def exHistNaN : List (OVec 2) := [someVec ![5, 5], fun _ => Option.none]

/-- Witness for C5 at the concrete inputs with a missing head. -/
theorem C5_witness :
    ((exHistNaN.tail ++ [exZ]).headI : OVec 2) 0 = Option.none
  ∧ discrete_AKF_update exX exU exZ exHistNaN exA exB exC exP exQ exR exTraj 0 1
      (fun _ => 0)
      = Except.ok (someVec exX, someVec exX, exP, exHistNaN.tail ++ [exZ]) :=
  ⟨rfl,
   C5_missing_head_skips_update exX exU exZ exHistNaN exA exB exC exP exQ exR exTraj 0 1
     (fun _ => 0) rfl⟩

/-- Claim C2 (amended): when the head of the shifted history is not missing, the
synchronized estimate `(x̂, P)` returned by `discrete_AKF_update` is the
result of one linear Kalman step applied with the measurement at the tail of
the history — the newly inserted `z = zhist[-1]` — not the head `zhist[0]`. -/
theorem C2_amended_tail_measurement {m n kk : ℕ} [NeZero kk] (x : Fin m → ℚ)
    (u : PyArg (Fin n → ℚ)) (z : OVec kk) (zhist : List (OVec kk))
    (A : Matrix (Fin m) (Fin m) ℚ) (B : PyArg (Matrix (Fin m) (Fin n) ℚ))
    (C : Matrix (Fin kk) (Fin m) ℚ) (P Q : Matrix (Fin m) (Fin m) ℚ)
    (R : Matrix (Fin kk) (Fin kk) ℚ) (trajectory : ℚ → ℚ) (t Ts : ℚ)
    (randn : ℕ → ℚ)
    (h1 : (((zhist.tail ++ [z]).headI : OVec kk) 0).isSome = true)
    (r : OVec m × OVec m × Matrix (Fin m) (Fin m) ℚ × List (OVec kk))
    (h2 : discrete_AKF_update x u z zhist A B C P Q R trajectory t Ts randn
        = Except.ok r) :
    discrete_KF_update (someVec x) u (some z) A B C P Q R
      = Except.ok (r.1, r.2.2.1) := by
  have hcond : (((zhist.tail ++ [z]).headI : OVec kk) 0).isNone = false := by
    cases hopt : ((zhist.tail ++ [z]).headI : OVec kk) 0 with
    | none => rw [hopt] at h1; exact absurd h1 (by simp)
    | some a => rfl
  rw [discrete_AKF_update] at h2
  simp only [hcond, Bool.false_eq_true, if_false, List.getLastD_concat] at h2
  cases hKF : discrete_KF_update (someVec x) u (some z) A B C P Q R with
  | error e =>
      rw [hKF] at h2
      exact absurd h2 (by simp)
  | ok p =>
      obtain ⟨xh, P1⟩ := p
      rw [hKF] at h2
      dsimp only at h2
      cases hloop : akf_loop u A B C Q R trajectory t Ts randn
          (List.range ((zhist.tail ++ [z]).length - 1)) (xh, P1, zhist.tail ++ [z]) with
      | error e =>
          rw [hloop] at h2
          exact absurd h2 (by simp)
      | ok st =>
          obtain ⟨xp, Pp, buf⟩ := st
          rw [hloop] at h2
          dsimp only at h2
          have hr := Except.ok.inj h2
          rw [← hr]

/-- Counterexample for C2 as stated: at the shared concrete inputs the head
of the shifted history is `(10,10)` while the inserted measurement is
`(0,0)`; the returned `x̂` is the Kalman update with the tail measurement
(`x̂ = 0`), not with the head (`x̂ = 20/3`). -/
theorem C2_counterexample :
    (((exHist.tail ++ [exZ]).headI : OVec 2) 0).isSome = true
  ∧ (discrete_AKF_update exX exU exZ exHist exA exB exC exP exQ exR exTraj 0 1
        (fun _ => 0)).toOption.map (fun r => r.1)
      ≠ (discrete_KF_update (someVec exX) exU (some ((exHist.tail ++ [exZ]).headI))
          exA exB exC exP exQ exR).toOption.map (fun r => r.1) := by
  constructor
  · rfl
  · with_unfolding_all decide

/-- The synchronized result returned by `discrete_AKF_update` at the shared
concrete inputs with measurement `exZ`. -/
def exAKFr : OVec 1 × OVec 1 × Matrix (Fin 1) (Fin 1) ℚ × List (OVec 2) :=
  (someVec ![0], someVec ![0], !![1/3], [someVec ![10, 10], someVec ![0, 0]])

/-- Witness for the amended C2 at the shared concrete inputs. -/
theorem C2_witness :
    discrete_AKF_update exX exU exZ exHist exA exB exC exP exQ exR exTraj 0 1
      (fun _ => 0) = Except.ok exAKFr
  ∧ discrete_KF_update (someVec exX) exU (some exZ) exA exB exC exP exQ exR
      = Except.ok (exAKFr.1, exAKFr.2.2.1) :=
  ⟨by with_unfolding_all decide,
   C2_amended_tail_measurement exX exU exZ exHist exA exB exC exP exQ exR exTraj 0 1
     (fun _ => 0) rfl exAKFr (by with_unfolding_all decide)⟩

/-- The returned covariance and the success/failure status of a measurement
update do not depend on the state estimate or on the measurement vector. -/
theorem KF_snd_indep {m n kk : ℕ} (x₁ x₂ : OVec m) (z₁ z₂ : OVec kk)
    (u : PyArg (Fin n → ℚ)) (A : Matrix (Fin m) (Fin m) ℚ)
    (B : PyArg (Matrix (Fin m) (Fin n) ℚ)) (C : Matrix (Fin kk) (Fin m) ℚ)
    (P Q : Matrix (Fin m) (Fin m) ℚ) (R : Matrix (Fin kk) (Fin kk) ℚ) :
    (discrete_KF_update x₁ u (some z₁) A B C P Q R).map Prod.snd
      = (discrete_KF_update x₂ u (some z₂) A B C P Q R).map Prod.snd := by
  rcases B with _ | _ | Bm <;> rcases u with _ | _ | uv <;>
    first
      | rfl
      | (dsimp only [discrete_KF_update, PyArg.isEmptyList]
         by_cases hd : detQ (C * ((A * P * Aᵀ + Q) * Cᵀ) + R) = 0
         · simp only [if_pos hd]
           rfl
         · simp only [if_neg hd]
           rfl)

/-- Whether the re-propagation loop fails, and with which exception, does not
depend on the random stream, the running state estimate, or the buffer
contents: only the carried covariance matters. -/
theorem akf_loop_status {m n kk : ℕ} [NeZero kk] (u : PyArg (Fin n → ℚ))
    (A : Matrix (Fin m) (Fin m) ℚ) (B : PyArg (Matrix (Fin m) (Fin n) ℚ))
    (C : Matrix (Fin kk) (Fin m) ℚ) (Q : Matrix (Fin m) (Fin m) ℚ)
    (R : Matrix (Fin kk) (Fin kk) ℚ) (trajectory : ℚ → ℚ) (t Ts : ℚ)
    (randn₁ randn₂ : ℕ → ℚ) :
    ∀ (l : List ℕ) (xp₁ xp₂ : OVec m) (Pp : Matrix (Fin m) (Fin m) ℚ)
      (buf₁ buf₂ : List (OVec kk)),
      (akf_loop u A B C Q R trajectory t Ts randn₁ l (xp₁, Pp, buf₁)).map (fun _ => ())
        = (akf_loop u A B C Q R trajectory t Ts randn₂ l (xp₂, Pp, buf₂)).map
            (fun _ => ()) := by
  intro l
  induction l with
  | nil => intro xp₁ xp₂ Pp buf₁ buf₂; rfl
  | cons ii rest ih =>
      intro xp₁ xp₂ Pp buf₁ buf₂
      dsimp only [akf_loop]
      have hsnd := KF_snd_indep xp₁ xp₂
        (Function.update (buf₁.getD (ii + 1) (fun _ => Option.none)) 1
          (some (trajectory (t + (((1 + ii : ℕ) : ℚ) - (buf₁.length : ℚ)) * Ts)
            + randn₁ ii * R 1 1)))
        (Function.update (buf₂.getD (ii + 1) (fun _ => Option.none)) 1
          (some (trajectory (t + (((1 + ii : ℕ) : ℚ) - (buf₂.length : ℚ)) * Ts)
            + randn₂ ii * R 1 1)))
        u A B C Pp Q R
      cases h₁ : discrete_KF_update xp₁ u
          (some (Function.update (buf₁.getD (ii + 1) (fun _ => Option.none)) 1
            (some (trajectory (t + (((1 + ii : ℕ) : ℚ) - (buf₁.length : ℚ)) * Ts)
              + randn₁ ii * R 1 1)))) A B C Pp Q R with
      | error e =>
          rw [h₁] at hsnd
          cases h₂ : discrete_KF_update xp₂ u
              (some (Function.update (buf₂.getD (ii + 1) (fun _ => Option.none)) 1
                (some (trajectory (t + (((1 + ii : ℕ) : ℚ) - (buf₂.length : ℚ)) * Ts)
                  + randn₂ ii * R 1 1)))) A B C Pp Q R with
          | error e₂ =>
              rw [h₂] at hsnd
              have he : e = e₂ := Except.error.inj hsnd
              subst he
              rfl
          | ok p =>
              rw [h₂] at hsnd
              exact Except.noConfusion hsnd
      | ok p =>
          obtain ⟨xp, Pp2⟩ := p
          rw [h₁] at hsnd
          cases h₂ : discrete_KF_update xp₂ u
              (some (Function.update (buf₂.getD (ii + 1) (fun _ => Option.none)) 1
                (some (trajectory (t + (((1 + ii : ℕ) : ℚ) - (buf₂.length : ℚ)) * Ts)
                  + randn₂ ii * R 1 1)))) A B C Pp Q R with
          | error e₂ =>
              rw [h₂] at hsnd
              exact Except.noConfusion hsnd
          | ok q =>
              obtain ⟨xq, Pq2⟩ := q
              rw [h₂] at hsnd
              have hPP : Pp2 = Pq2 := Except.ok.inj hsnd
              dsimp only
              rw [← hPP]
              exact ih xp xq Pp2 _ _

/-- Claim C9 (amended): `discrete_AKF_update` reads the process-global numpy random
generator (made explicit as the stream `randn`), so it is not a function of
its explicit arguments alone; however the synchronized estimate `(x̂, P)` and
the success/failure status are independent of the drawn samples — only the
re-propagated `x_pred` and the returned history depend on them. -/
theorem C9_amended_rng_independent_sync {m n kk : ℕ} [NeZero kk] (x : Fin m → ℚ)
    (u : PyArg (Fin n → ℚ)) (z : OVec kk) (zhist : List (OVec kk))
    (A : Matrix (Fin m) (Fin m) ℚ) (B : PyArg (Matrix (Fin m) (Fin n) ℚ))
    (C : Matrix (Fin kk) (Fin m) ℚ) (P Q : Matrix (Fin m) (Fin m) ℚ)
    (R : Matrix (Fin kk) (Fin kk) ℚ) (trajectory : ℚ → ℚ) (t Ts : ℚ)
    (randn₁ randn₂ : ℕ → ℚ) :
    (discrete_AKF_update x u z zhist A B C P Q R trajectory t Ts randn₁).map
        (fun r => (r.1, r.2.2.1))
      = (discrete_AKF_update x u z zhist A B C P Q R trajectory t Ts randn₂).map
          (fun r => (r.1, r.2.2.1)) := by
  dsimp only [discrete_AKF_update]
  by_cases hcond : (((zhist.tail ++ [z]).headI : OVec kk) 0).isNone = true
  · simp only [if_pos hcond]
  · simp only [if_neg hcond]
    cases hKF : discrete_KF_update (someVec x) u
        (some ((zhist.tail ++ [z]).getLastD (fun _ => Option.none))) A B C P Q R with
    | error e => rfl
    | ok p =>
        obtain ⟨xh, P1⟩ := p
        dsimp only
        have hst := akf_loop_status u A B C Q R trajectory t Ts randn₁ randn₂
          (List.range ((zhist.tail ++ [z]).length - 1)) xh xh P1
          (zhist.tail ++ [z]) (zhist.tail ++ [z])
        cases hl₁ : akf_loop u A B C Q R trajectory t Ts randn₁
            (List.range ((zhist.tail ++ [z]).length - 1)) (xh, P1, zhist.tail ++ [z]) with
        | error e =>
            rw [hl₁] at hst
            cases hl₂ : akf_loop u A B C Q R trajectory t Ts randn₂
                (List.range ((zhist.tail ++ [z]).length - 1))
                (xh, P1, zhist.tail ++ [z]) with
            | error e₂ =>
                rw [hl₂] at hst
                have he : e = e₂ := Except.error.inj hst
                subst he
                rfl
            | ok st =>
                rw [hl₂] at hst
                exact Except.noConfusion hst
        | ok st₁ =>
            rw [hl₁] at hst
            cases hl₂ : akf_loop u A B C Q R trajectory t Ts randn₂
                (List.range ((zhist.tail ++ [z]).length - 1))
                (xh, P1, zhist.tail ++ [z]) with
            | error e₂ =>
                rw [hl₂] at hst
                exact Except.noConfusion hst
            | ok st₂ =>
                obtain ⟨xq₁, Pq₁, buf₁⟩ := st₁
                obtain ⟨xq₂, Pq₂, buf₂⟩ := st₂
                rfl

/-- Witness for the amended C9 at the shared concrete inputs. -/
theorem C9_witness :
    (discrete_AKF_update exX exU exZ exHist exA exB exC exP exQ exR exTraj 0 1
        (fun _ => 0)).map (fun r => (r.1, r.2.2.1))
      = (discrete_AKF_update exX exU exZ exHist exA exB exC exP exQ exR exTraj 0 1
          (fun _ => 3)).map (fun r => (r.1, r.2.2.1)) :=
  C9_amended_rng_independent_sync exX exU exZ exHist exA exB exC exP exQ exR exTraj 0 1
    (fun _ => 0) (fun _ => 3)

/-- Counterexample for C9 as stated: at the shared concrete inputs, two calls
with identical explicit arguments but different draws of the global random
generator return different results (they differ in `x_pred` and in the
returned history). -/
theorem C9_counterexample :
    discrete_AKF_update exX exU exZ exHist exA exB exC exP exQ exR exTraj 0 1 (fun _ => 0)
      ≠ discrete_AKF_update exX exU exZ exHist exA exB exC exP exQ exR exTraj 0 1
          (fun _ => 3) := by
  with_unfolding_all decide

/-- Effect of the re-propagation loop on the caller's history buffer: each
iteration `ii` overwrites component 1 of slot `ii + 1` with the synthesized
trajectory-plus-noise value, in place. -/
def akf_buffer_effect {kk : ℕ} [NeZero kk] (R : Matrix (Fin kk) (Fin kk) ℚ)
    (trajectory : ℚ → ℚ) (t Ts : ℚ) (randn : ℕ → ℚ) :
    List ℕ → List (OVec kk) → List (OVec kk)
  | [], buf => buf
  | ii :: rest, buf =>
      akf_buffer_effect R trajectory t Ts randn rest
        (buf.set (ii + 1) (Function.update (buf.getD (ii + 1) (fun _ => Option.none)) 1
          (some (trajectory (t + (((1 + ii : ℕ) : ℚ) - (buf.length : ℚ)) * Ts)
            + randn ii * R 1 1))))

/-- On success, the buffer returned by the re-propagation loop is exactly the
input buffer transformed by `akf_buffer_effect`. -/
theorem akf_loop_buffer {m n kk : ℕ} [NeZero kk] (u : PyArg (Fin n → ℚ))
    (A : Matrix (Fin m) (Fin m) ℚ) (B : PyArg (Matrix (Fin m) (Fin n) ℚ))
    (C : Matrix (Fin kk) (Fin m) ℚ) (Q : Matrix (Fin m) (Fin m) ℚ)
    (R : Matrix (Fin kk) (Fin kk) ℚ) (trajectory : ℚ → ℚ) (t Ts : ℚ)
    (randn : ℕ → ℚ) :
    ∀ (l : List ℕ) (xp : OVec m) (Pp : Matrix (Fin m) (Fin m) ℚ)
      (buf : List (OVec kk)) (st : OVec m × Matrix (Fin m) (Fin m) ℚ × List (OVec kk)),
      akf_loop u A B C Q R trajectory t Ts randn l (xp, Pp, buf) = Except.ok st →
      st.2.2 = akf_buffer_effect R trajectory t Ts randn l buf := by
  intro l
  induction l with
  | nil =>
      intro xp Pp buf st h
      cases h
      rfl
  | cons ii rest ih =>
      intro xp Pp buf st h
      dsimp only [akf_loop] at h
      cases hKF : discrete_KF_update xp u
          (some (Function.update (buf.getD (ii + 1) (fun _ => Option.none)) 1
            (some (trajectory (t + (((1 + ii : ℕ) : ℚ) - (buf.length : ℚ)) * Ts)
              + randn ii * R 1 1)))) A B C Pp Q R with
      | error e =>
          rw [hKF] at h
          exact absurd h (by simp)
      | ok p =>
          obtain ⟨xp2, Pp2⟩ := p
          rw [hKF] at h
          dsimp only at h
          exact ih xp2 Pp2 _ st h

/-- Claim C10 (amended): `discrete_AKF_update` mutates the caller's history buffer
in place (the returned history models the buffer as the caller sees it after
the call): the buffer always holds the shifted history, and when the head is
not missing the loop additionally overwrites component 1 of every slot of
index ≥ 1 — including the entries the caller supplied — with synthesized
trajectory-plus-noise values. -/
theorem C10_amended_history_mutated_inplace {m n kk : ℕ} [NeZero kk] (x : Fin m → ℚ)
    (u : PyArg (Fin n → ℚ)) (z : OVec kk) (zhist : List (OVec kk))
    (A : Matrix (Fin m) (Fin m) ℚ) (B : PyArg (Matrix (Fin m) (Fin n) ℚ))
    (C : Matrix (Fin kk) (Fin m) ℚ) (P Q : Matrix (Fin m) (Fin m) ℚ)
    (R : Matrix (Fin kk) (Fin kk) ℚ) (trajectory : ℚ → ℚ) (t Ts : ℚ)
    (randn : ℕ → ℚ) :
    (((zhist.tail ++ [z]).headI : OVec kk) 0 = Option.none →
      discrete_AKF_update x u z zhist A B C P Q R trajectory t Ts randn
        = Except.ok (someVec x, someVec x, P, zhist.tail ++ [z]))
  ∧ (∀ r, (((zhist.tail ++ [z]).headI : OVec kk) 0).isSome = true →
      discrete_AKF_update x u z zhist A B C P Q R trajectory t Ts randn = Except.ok r →
      r.2.2.2 = akf_buffer_effect R trajectory t Ts randn
        (List.range ((zhist.tail ++ [z]).length - 1)) (zhist.tail ++ [z])) := by
  constructor
  · intro h
    exact C5_missing_head_skips_update x u z zhist A B C P Q R trajectory t Ts randn h
  · intro r h1 h2
    have hcond : (((zhist.tail ++ [z]).headI : OVec kk) 0).isNone = false := by
      cases hopt : ((zhist.tail ++ [z]).headI : OVec kk) 0 with
      | none => rw [hopt] at h1; exact absurd h1 (by simp)
      | some a => rfl
    rw [discrete_AKF_update] at h2
    simp only [hcond, Bool.false_eq_true, if_false] at h2
    cases hKF : discrete_KF_update (someVec x) u
        (some ((zhist.tail ++ [z]).getLastD (fun _ => Option.none))) A B C P Q R with
    | error e =>
        rw [hKF] at h2
        exact absurd h2 (by simp)
    | ok p =>
        obtain ⟨xh, P1⟩ := p
        rw [hKF] at h2
        dsimp only at h2
        cases hloop : akf_loop u A B C Q R trajectory t Ts randn
            (List.range ((zhist.tail ++ [z]).length - 1))
            (xh, P1, zhist.tail ++ [z]) with
        | error e =>
            rw [hloop] at h2
            exact absurd h2 (by simp)
        | ok st =>
            obtain ⟨xp, Pp, buf⟩ := st
            rw [hloop] at h2
            dsimp only at h2
            have hr := Except.ok.inj h2
            have hbuf := akf_loop_buffer u A B C Q R trajectory t Ts randn
              (List.range ((zhist.tail ++ [z]).length - 1)) xh P1
              (zhist.tail ++ [z]) (xp, Pp, buf) hloop
            rw [← hr]
            exact hbuf

/-- Counterexample for C10 as stated: at the shared concrete inputs the
buffer the caller holds after the call differs from the one supplied, and the
slot holding the just-inserted measurement `z = (0, 7)` has had its component
1 overwritten by the synthesized value. -/
theorem C10_counterexample :
    (discrete_AKF_update exX exU exZ7 exHist exA exB exC exP exQ exR exTraj 0 1
        (fun _ => 0)).toOption.map (fun r => r.2.2.2) ≠ some exHist
  ∧ (discrete_AKF_update exX exU exZ7 exHist exA exB exC exP exQ exR exTraj 0 1
        (fun _ => 0)).toOption.map (fun r => r.2.2.2.getD 1 (fun _ => Option.none))
      ≠ some exZ7 := by
  constructor
  · with_unfolding_all decide
  · with_unfolding_all decide

/-- The full result of `discrete_AKF_update` at the shared concrete inputs
with measurement `exZ7`. -/
def exAKFr7 : OVec 1 × OVec 1 × Matrix (Fin 1) (Fin 1) ℚ × List (OVec 2) :=
  (someVec ![7/3], someVec ![7/5], !![1/3], [someVec ![10, 10], someVec ![0, 0]])

/-- Witness for the amended C10 at the shared concrete inputs. -/
theorem C10_witness :
    discrete_AKF_update exX exU exZ7 exHist exA exB exC exP exQ exR exTraj 0 1
      (fun _ => 0) = Except.ok exAKFr7
  ∧ exAKFr7.2.2.2 = akf_buffer_effect exR exTraj 0 1 (fun _ => 0)
      (List.range ((exHist.tail ++ [exZ7]).length - 1)) (exHist.tail ++ [exZ7]) :=
  ⟨by with_unfolding_all decide,
   (C10_amended_history_mutated_inplace exX exU exZ7 exHist exA exB exC exP exQ exR
      exTraj 0 1 (fun _ => 0)).2 exAKFr7 rfl (by with_unfolding_all decide)⟩

/-- Cholesky–Banachiewicz recursion over entry functions on `ℕ`:
`cholStep A J` has the first `J` columns of the lower-triangular Cholesky
factor of `A` filled in (column `J - 1` is computed at step `J` from the
previous columns).  This is the factorisation `scipy.linalg.cholesky`
computes; on a non-positive-definite input scipy raises instead (a failure
mode not needed by the claims below). -/
noncomputable def cholStep (A : ℕ → ℕ → ℝ) : ℕ → ℕ → ℕ → ℝ
  | 0, _, _ => 0
  | J + 1, i, j =>
      if j < J then cholStep A J i j
      else if j = J then
        (if i < J then 0
         else if i = J then
           Real.sqrt (A J J - ∑ k in Finset.range J, (cholStep A J J k) ^ 2)
         else
           (A i J - ∑ k in Finset.range J, cholStep A J i k * cholStep A J J k)
             / Real.sqrt (A J J - ∑ k in Finset.range J, (cholStep A J J k) ^ 2))
      else 0

/-- The lower-triangular Cholesky factor of an `n × n` real matrix. -/
noncomputable def cholLower {n : ℕ} (P : Matrix (Fin n) (Fin n) ℝ) :
    Matrix (Fin n) (Fin n) ℝ :=
  Matrix.of fun i j =>
    cholStep (fun a b => if h : a < n ∧ b < n then P ⟨a, h.1⟩ ⟨b, h.2⟩ else 0) n i j

/-- Model of `scipy.linalg.cholesky` with its default `lower=False`: the
upper-triangular factor, the transpose of the lower one. -/
noncomputable def scipy_cholesky {n : ℕ} (P : Matrix (Fin n) (Fin n) ℝ) :
    Matrix (Fin n) (Fin n) ℝ :=
  (cholLower P)ᵀ

theorem cholStep_smul (A : ℕ → ℕ → ℝ) (c : ℝ) (hc : 0 < c) :
    ∀ (J i j : ℕ), cholStep (fun a b => c * A a b) J i j
      = Real.sqrt c * cholStep A J i j := by
  intro J
  induction J with
  | zero => intro i j; simp [cholStep]
  | succ J ih =>
      intro i j
      have hsq : ∀ a b : ℝ, (Real.sqrt c * a) * (Real.sqrt c * b) = c * (a * b) := by
        intro a b
        rw [mul_mul_mul_comm, Real.mul_self_sqrt hc.le]
      have hdiag : (fun a b => c * A a b) J J
            - ∑ k in Finset.range J, (cholStep (fun a b => c * A a b) J J k) ^ 2
          = c * (A J J - ∑ k in Finset.range J, (cholStep A J J k) ^ 2) := by
        have : ∀ k ∈ Finset.range J, (cholStep (fun a b => c * A a b) J J k) ^ 2
            = c * (cholStep A J J k) ^ 2 := by
          intro k _
          rw [ih J k, mul_pow, Real.sq_sqrt hc.le]
        rw [Finset.sum_congr rfl this, ← Finset.mul_sum, mul_sub]
      have hnum : (fun a b => c * A a b) i J
            - ∑ k in Finset.range J,
                cholStep (fun a b => c * A a b) J i k
                  * cholStep (fun a b => c * A a b) J J k
          = c * (A i J - ∑ k in Finset.range J,
                cholStep A J i k * cholStep A J J k) := by
        have : ∀ k ∈ Finset.range J,
            cholStep (fun a b => c * A a b) J i k
                * cholStep (fun a b => c * A a b) J J k
              = c * (cholStep A J i k * cholStep A J J k) := by
          intro k _
          rw [ih i k, ih J k, hsq]
        rw [Finset.sum_congr rfl this, ← Finset.mul_sum, mul_sub]
      have unfoldC : ∀ (B : ℕ → ℕ → ℝ) (a b : ℕ), cholStep B (J + 1) a b
          = if b < J then cholStep B J a b
            else if b = J then
              (if a < J then 0
               else if a = J then
                 Real.sqrt (B J J - ∑ k in Finset.range J, (cholStep B J J k) ^ 2)
               else
                 (B a J - ∑ k in Finset.range J, cholStep B J a k * cholStep B J J k)
                   / Real.sqrt (B J J - ∑ k in Finset.range J, (cholStep B J J k) ^ 2))
            else 0 := fun B a b => rfl
      rw [unfoldC, unfoldC]
      by_cases h1 : j < J
      · rw [if_pos h1, if_pos h1]
        exact ih i j
      · rw [if_neg h1, if_neg h1]
        by_cases h2 : j = J
        · rw [if_pos h2, if_pos h2]
          by_cases h3 : i < J
          · rw [if_pos h3, if_pos h3, mul_zero]
          · rw [if_neg h3, if_neg h3]
            by_cases h4 : i = J
            · rw [if_pos h4, if_pos h4, hdiag, Real.sqrt_mul hc.le]
            · rw [if_neg h4, if_neg h4, hnum, hdiag, Real.sqrt_mul hc.le]
              set N := A i J - ∑ k in Finset.range J,
                cholStep A J i k * cholStep A J J k with hN
              set D := A J J - ∑ k in Finset.range J, (cholStep A J J k) ^ 2 with hD
              rcases eq_or_ne (Real.sqrt D) 0 with hDz | hDz
              · rw [hDz, mul_zero, div_zero, div_zero, mul_zero]
              · have hsc : Real.sqrt c ≠ 0 := by positivity
                rw [div_mul_eq_div_div,
                  show c * N / Real.sqrt c = Real.sqrt c * N by
                    nth_rewrite 1 [show c = Real.sqrt c * Real.sqrt c from
                      (Real.mul_self_sqrt hc.le).symm]
                    rw [mul_assoc, mul_div_cancel_left₀ _ hsc],
                  mul_div_assoc]
        · rw [if_neg h2, if_neg h2, mul_zero]

/-- Scaling a matrix by a positive constant scales its Cholesky factor by the
square root of that constant. -/
theorem cholLower_smul {n : ℕ} (c : ℝ) (hc : 0 < c) (P : Matrix (Fin n) (Fin n) ℝ) :
    cholLower (c • P) = Real.sqrt c • cholLower P := by
  funext i j
  have harg : (fun a b => if h : a < n ∧ b < n then (c • P) ⟨a, h.1⟩ ⟨b, h.2⟩ else 0)
      = fun a b => c * (if h : a < n ∧ b < n then P ⟨a, h.1⟩ ⟨b, h.2⟩ else 0) := by
    funext a b
    by_cases h : a < n ∧ b < n
    · simp [h, Matrix.smul_apply, smul_eq_mul]
    · simp [h]
  show cholStep _ n i j = Real.sqrt c * cholStep _ n i j
  rw [harg]
  exact cholStep_smul _ c hc n i j

/-- UKF tuning parameter `beta = 2` (crazylib.py line 174). -/
noncomputable def ukf_beta : ℝ := 2

/-- UKF tuning parameter `alpha = 5e-1` (crazylib.py line 175). -/
noncomputable def ukf_alpha : ℝ := 5 / 10

/-- UKF tuning parameter `keta = 0` (crazylib.py line 176). -/
noncomputable def ukf_keta : ℝ := 0

/-- UKF scaling factor `lam = alpha^2 * (L + keta) - L` (crazylib.py line
177), with `L` the state dimension. -/
noncomputable def ukf_lam (L : ℕ) : ℝ := ukf_alpha ^ 2 * ((L : ℝ) + ukf_keta) - L

/-- Mean-weight vector `Wm = append(lam/(L+lam), (1/(2(L+lam)))·ones(2L))`
(crazylib.py lines 181–183). -/
noncomputable def ukf_Wm (L : ℕ) : Fin (2 * L + 1) → ℝ := fun i =>
  if (i : ℕ) = 0 then ukf_lam L / ((L : ℝ) + ukf_lam L)
  else 1 / (2 * ((L : ℝ) + ukf_lam L))

/-- Covariance-weight vector
`Wc = append(lam/(L+lam) + (1 - alpha^2 + beta), (1/(2(L+lam)))·ones(2L))`
(crazylib.py lines 186–188). -/
noncomputable def ukf_Wc (L : ℕ) : Fin (2 * L + 1) → ℝ := fun i =>
  if (i : ℕ) = 0 then
    ukf_lam L / ((L : ℝ) + ukf_lam L) + (1 - ukf_alpha ^ 2 + ukf_beta)
  else 1 / (2 * ((L : ℝ) + ukf_lam L))

/-- `Psqrt = sqrt(L + lam) * transpose(cholesky(P))` (crazylib.py line 191). -/
noncomputable def ukf_Psqrt {L : ℕ} (P : Matrix (Fin L) (Fin L) ℝ) :
    Matrix (Fin L) (Fin L) ℝ :=
  Real.sqrt ((L : ℝ) + ukf_lam L) • (scipy_cholesky P)ᵀ

/-- Sigma-point matrix
`X = hstack((x, tile(x,(1,L)) + Psqrt, tile(x,(1,L)) - Psqrt))`
(crazylib.py line 192): column 0 is `x`, columns `1..L` are `x` plus the
columns of `Psqrt`, columns `L+1..2L` are `x` minus them. -/
noncomputable def ukf_X {L : ℕ} (x : Fin L → ℝ) (P : Matrix (Fin L) (Fin L) ℝ) :
    Matrix (Fin L) (Fin (2 * L + 1)) ℝ :=
  Matrix.of fun r c =>
    if h0 : (c : ℕ) = 0 then x r
    else if hL : (c : ℕ) ≤ L then x r + ukf_Psqrt P r ⟨(c : ℕ) - 1, by omega⟩
    else x r - ukf_Psqrt P r ⟨(c : ℕ) - 1 - L, by have hlt := c.isLt; omega⟩

/-- Claim C6: the UKF weight vectors are exactly the spec's formulas (with `β = 2`,
covariance weights of the surrounding points equal to their mean weights),
and the `2L+1` sigma points are the center `x` together with `x ±` each
column of the Cholesky factor of `(L+λ)·P`. -/
theorem C6_ukf_weights_and_sigma_points (L : ℕ) (hL : 1 ≤ L) (x : Fin L → ℝ)
    (P : Matrix (Fin L) (Fin L) ℝ) :
    ukf_Wm L ⟨0, by omega⟩ = ukf_lam L / ((L : ℝ) + ukf_lam L)
  ∧ (∀ i : Fin (2 * L + 1), (i : ℕ) ≠ 0 →
      ukf_Wm L i = 1 / (2 * ((L : ℝ) + ukf_lam L)))
  ∧ ukf_Wc L ⟨0, by omega⟩
      = ukf_lam L / ((L : ℝ) + ukf_lam L) + (1 - ukf_alpha ^ 2 + ukf_beta)
  ∧ ukf_beta = 2
  ∧ (∀ i : Fin (2 * L + 1), (i : ℕ) ≠ 0 → ukf_Wc L i = ukf_Wm L i)
  ∧ (∀ r, ukf_X x P r ⟨0, by omega⟩ = x r)
  ∧ (∀ (i : Fin L) (r : Fin L),
      ukf_X x P r ⟨(i : ℕ) + 1, by have := i.isLt; omega⟩
        = x r + cholLower (((L : ℝ) + ukf_lam L) • P) r i)
  ∧ (∀ (i : Fin L) (r : Fin L),
      ukf_X x P r ⟨(i : ℕ) + 1 + L, by have := i.isLt; omega⟩
        = x r - cholLower (((L : ℝ) + ukf_lam L) • P) r i) := by
  have hpos : (0 : ℝ) < (L : ℝ) + ukf_lam L := by
    have h1 : (1 : ℝ) ≤ (L : ℝ) := by exact_mod_cast hL
    unfold ukf_lam ukf_alpha ukf_keta
    nlinarith
  have key : ukf_Psqrt P = cholLower (((L : ℝ) + ukf_lam L) • P) := by
    rw [ukf_Psqrt, scipy_cholesky, Matrix.transpose_transpose,
      cholLower_smul _ hpos P]
  refine ⟨rfl, ?_, rfl, rfl, ?_, ?_, ?_, ?_⟩
  · intro i hi
    simp only [ukf_Wm, if_neg hi]
  · intro i hi
    simp only [ukf_Wc, ukf_Wm, if_neg hi]
  · intro r
    rfl
  · intro i r
    have h1 : ((i : ℕ) + 1) ≠ 0 := Nat.succ_ne_zero _
    have h2 : ((i : ℕ) + 1) ≤ L := Nat.succ_le_of_lt i.isLt
    simp only [ukf_X, Matrix.of_apply, Fin.val_mk]
    rw [dif_neg h1, dif_pos h2, key]
    exact congrArg (fun w => x r + cholLower (((L : ℝ) + ukf_lam L) • P) r w)
      (Fin.ext (by simp only [Fin.val_mk]; omega))
  · intro i r
    have h0 : (i : ℕ) < L := i.isLt
    have h1 : ((i : ℕ) + 1 + L) ≠ 0 := by omega
    have h2 : ¬ ((i : ℕ) + 1 + L ≤ L) := by omega
    simp only [ukf_X, Matrix.of_apply, Fin.val_mk]
    rw [dif_neg h1, dif_neg h2, key]
    exact congrArg (fun w => x r - cholLower (((L : ℝ) + ukf_lam L) • P) r w)
      (Fin.ext (by simp only [Fin.val_mk]; omega))

/-- Witness for C6 at `L = 1`. -/
theorem C6_witness :
    1 ≤ 1
  ∧ ukf_Wm 1 ⟨0, by omega⟩ = ukf_lam 1 / (((1 : ℕ) : ℝ) + ukf_lam 1)
  ∧ ukf_beta = 2 :=
  ⟨le_refl 1,
   (C6_ukf_weights_and_sigma_points 1 (le_refl 1) ![0] !![1]).1,
   (C6_ukf_weights_and_sigma_points 1 (le_refl 1) ![0] !![1]).2.2.2.1⟩

/-- Parameter dictionary of the quadcopter model: `param['global']
['inner_loop_h']` and `param['quadcopter_model'][...]` (crazylib.py lines
248–255). -/
structure QuadParam where
  inner_loop_h : ℝ
  g : ℝ
  m : ℝ
  k : ℝ
  A : Fin 3 → ℝ
  I : Fin 3 → ℝ
  l : ℝ
  b : ℝ

/-- The Coriolis/centripetal matrix `C` of `quadcopter_dynamics`
(crazylib.py lines 269–298), verbatim — including the `psi` (not `psidot`)
factor in the last term of `C32`, as in the source. -/
noncomputable def quad_Cmat (Ixx Iyy Izz phi theta psi phidot thetadot psidot : ℝ) :
    Matrix (Fin 3) (Fin 3) ℝ :=
  let Sphi := Real.sin phi
  let Stheta := Real.sin theta
  let Spsi := Real.sin psi
  let Cphi := Real.cos phi
  let Ctheta := Real.cos theta
  let Cpsi := Real.cos psi
  !![(0 : ℝ),
     (Iyy - Izz) * (thetadot * Cphi * Sphi + psidot * Sphi ^ 2 * Ctheta)
       + (Izz - Iyy) * psidot * Cphi ^ 2 * Ctheta - Ixx * psidot * Ctheta,
     (Izz - Iyy) * psidot * Cphi * Sphi * Ctheta ^ 2;
     (Izz - Iyy) * (thetadot * Cphi * Sphi + psidot * Sphi * Ctheta)
       + (Iyy - Izz) * psidot * Cphi ^ 2 * Ctheta - Ixx * psidot * Ctheta,
     (Izz - Iyy) * phidot * Cphi * Sphi,
     -Ixx * psidot * Stheta * Ctheta + Iyy * psidot * Sphi ^ 2 * Stheta * Ctheta
       + Izz * psidot * Cphi ^ 2 * Stheta * Ctheta;
     (Iyy - Izz) * psidot * Ctheta ^ 2 * Sphi * Cphi - Ixx * thetadot * Ctheta,
     (Izz - Iyy) * (thetadot * Cphi * Sphi * Stheta + phidot * Sphi ^ 2 * Ctheta)
       + (Iyy - Izz) * phidot * Cphi ^ 2 * Ctheta
       + Ixx * psidot * Stheta * Ctheta
       - Iyy * psidot * Sphi ^ 2 * Stheta * Ctheta
       - Izz * psi * Cphi ^ 2 * Stheta * Ctheta,
     (Iyy - Izz) * phidot * Cphi * Sphi * Ctheta ^ 2
       - Iyy * thetadot * Sphi ^ 2 * Ctheta * Stheta
       - Izz * thetadot * Cphi ^ 2 * Ctheta * Stheta
       + Ixx * thetadot * Ctheta * Stheta]

/-- The inertia-like matrix `J` of `quadcopter_dynamics` (crazylib.py lines
307–319). -/
noncomputable def quad_J (Ixx Iyy Izz phi theta : ℝ) : Matrix (Fin 3) (Fin 3) ℝ :=
  let Sphi := Real.sin phi
  let Stheta := Real.sin theta
  let Cphi := Real.cos phi
  let Ctheta := Real.cos theta
  !![Ixx, (0 : ℝ), -Ixx * Stheta;
     (0 : ℝ), Iyy * Cphi ^ 2 + Izz * Sphi ^ 2, (Iyy - Izz) * Cphi * Sphi * Ctheta;
     -Ixx * Stheta, (Iyy - Izz) * Cphi * Sphi * Ctheta,
       Ixx * Stheta ^ 2 + Iyy * Sphi ^ 2 * Ctheta ^ 2 + Izz * Cphi ^ 2 * Ctheta ^ 2]

/-- Net thrust `T = k * sum(u ** 2)` (crazylib.py line 258). -/
noncomputable def quad_T (param : QuadParam) (u : Fin 4 → ℝ) : ℝ :=
  param.k * ∑ i, (u i) ^ 2

/-- Body torques `tau_b` (crazylib.py lines 300–305). -/
noncomputable def quad_tau (param : QuadParam) (u : Fin 4 → ℝ) : Fin 3 → ℝ :=
  ![param.l * param.k * (-(u 1) ^ 2 + (u 3) ^ 2),
    param.l * param.k * (-(u 0) ^ 2 + (u 2) ^ 2),
    param.b * ((u 0) ^ 2 - (u 1) ^ 2 + (u 2) ^ 2 - (u 3) ^ 2)]

/-- The thrust-direction column `Rz` (crazylib.py lines 331–333). -/
noncomputable def quad_Rz (mm phi theta psi : ℝ) : Fin 3 → ℝ :=
  (1 / mm) • ![Real.cos psi * Real.sin theta * Real.cos phi
                 + Real.sin psi * Real.sin phi,
               Real.sin psi * Real.sin theta * Real.cos phi
                 - Real.cos psi * Real.sin phi,
               Real.cos theta * Real.cos phi]

/-- Continuous-time state matrix `Ac` assembled blockwise (crazylib.py lines
325–329): identity on rows 0–2 / columns 3–5, drag `-(1/m)·diag(A)` on rows
3–5, identity on rows 6–8 / columns 9–11, and `-invJ·C` on rows 9–11. -/
noncomputable def quad_Ac_mat (mm : ℝ) (Adrag : Fin 3 → ℝ)
    (JinvC : Matrix (Fin 3) (Fin 3) ℝ) : Matrix (Fin 12) (Fin 12) ℝ :=
  Matrix.of fun i j =>
    if (i : ℕ) < 3 ∧ (j : ℕ) = (i : ℕ) + 3 then 1
    else if h2 : 3 ≤ (i : ℕ) ∧ (i : ℕ) < 6 then
      (if j = i then -(1 / mm) * Adrag ⟨(i : ℕ) - 3, by omega⟩ else 0)
    else if 6 ≤ (i : ℕ) ∧ (i : ℕ) < 9 ∧ (j : ℕ) = (i : ℕ) + 3 then 1
    else if h4 : 9 ≤ (i : ℕ) ∧ 9 ≤ (j : ℕ) then
      (-JinvC) ⟨(i : ℕ) - 9, by have := i.isLt; omega⟩
        ⟨(j : ℕ) - 9, by have := j.isLt; omega⟩
    else 0

/-- Continuous-time input matrix `Bc` (crazylib.py lines 335–337): `Rz` in
rows 3–5 of column 0 and `invJ` in rows 9–11 of columns 1–3. -/
noncomputable def quad_Bc_mat (Rz : Fin 3 → ℝ) (invJ : Matrix (Fin 3) (Fin 3) ℝ) :
    Matrix (Fin 12) (Fin 4) ℝ :=
  Matrix.of fun i j =>
    if h1 : 3 ≤ (i : ℕ) ∧ (i : ℕ) < 6 ∧ (j : ℕ) = 0 then Rz ⟨(i : ℕ) - 3, by omega⟩
    else if h2 : 9 ≤ (i : ℕ) ∧ 1 ≤ (j : ℕ) then
      invJ ⟨(i : ℕ) - 9, by have := i.isLt; omega⟩
        ⟨(j : ℕ) - 1, by have := j.isLt; omega⟩
    else 0

/-- Output matrix `Cc` (crazylib.py lines 339–340): the identity placed in
columns 2–8, selecting state entries 2 through 8. -/
noncomputable def quad_Cc_mat : Matrix (Fin 7) (Fin 12) ℝ :=
  Matrix.of fun i j => if (j : ℕ) = (i : ℕ) + 2 then 1 else 0

/-- Model of `scipy.signal.cont2discrete((Ac, Bc, Cc, Dc), Ts, method='zoh')`
(crazylib.py line 344): the matrix exponential of the block matrix
`Ts • [[Ac, Bc], [0, 0]]` yields `Ad` and `Bd` as its upper blocks, and `Cc`
is passed through unchanged. -/
noncomputable def cont2discrete_zoh (Ac : Matrix (Fin 12) (Fin 12) ℝ)
    (Bc : Matrix (Fin 12) (Fin 4) ℝ) (Cc : Matrix (Fin 7) (Fin 12) ℝ) (Ts : ℝ) :
    Matrix (Fin 12) (Fin 12) ℝ × Matrix (Fin 12) (Fin 4) ℝ
      × Matrix (Fin 7) (Fin 12) ℝ :=
  let em := NormedSpace.exp ℝ (Ts • Matrix.fromBlocks Ac Bc
    (0 : Matrix (Fin 4) (Fin 12) ℝ) (0 : Matrix (Fin 4) (Fin 4) ℝ))
  (em.toBlocks₁₁, em.toBlocks₁₂, Cc)

/-- The discretized system `(Ad, Bd, Cd)` built by `quadcopter_dynamics` from
the current state's angles and rates (crazylib.py lines 247–348).  `inv(J)`
is the matrix inverse of the external linear-algebra backend. -/
noncomputable def quad_system (x : Fin 12 → ℝ) (param : QuadParam) :
    Matrix (Fin 12) (Fin 12) ℝ × Matrix (Fin 12) (Fin 4) ℝ
      × Matrix (Fin 7) (Fin 12) ℝ :=
  let phi := x 6
  let theta := x 7
  let psi := x 8
  let phidot := x 9
  let thetadot := x 10
  let psidot := x 11
  let Ixx := param.I 0
  let Iyy := param.I 1
  let Izz := param.I 2
  let Cmat := quad_Cmat Ixx Iyy Izz phi theta psi phidot thetadot psidot
  let invJ := (quad_J Ixx Iyy Izz phi theta)⁻¹
  cont2discrete_zoh (quad_Ac_mat param.m param.A (invJ * Cmat))
    (quad_Bc_mat (quad_Rz param.m phi theta psi) invJ) quad_Cc_mat
    param.inner_loop_h

/-- The reassembled control vector `u = concatenate([[[T]], tau_b])`
(crazylib.py line 354). -/
noncomputable def quad_u2 (u : Fin 4 → ℝ) (param : QuadParam) : Fin 4 → ℝ :=
  ![quad_T param u, quad_tau param u 0, quad_tau param u 1, quad_tau param u 2]

/-- The gravity column `G` with `G[5,0] = -g` (crazylib.py lines 350–351). -/
noncomputable def quad_G (g : ℝ) : Fin 12 → ℝ := fun i =>
  if (i : ℕ) = 5 then -g else 0

/-- Embedding of `quadcopter_dynamics(x, u, param)` (crazylib.py lines
227–358): `xout = Ad·x + Bd·u2 + G·Ts` and `yout = Cd·x`. -/
noncomputable def quadcopter_dynamics (x : Fin 12 → ℝ) (u : Fin 4 → ℝ)
    (param : QuadParam) : (Fin 12 → ℝ) × (Fin 7 → ℝ) :=
  let sys := quad_system x param
  (fun i => sys.1.mulVec x i + sys.2.1.mulVec (quad_u2 u param) i
      + quad_G param.g i * param.inner_loop_h,
   sys.2.2.mulVec x)

/-- Claim C7: at `x = 0`, `u = 0` with `g = 9.81`, `m = 0.03`, `k = 1e-6`,
`Ts = 0.01`, one step gives exactly `-0.0981` on the vertical-velocity slot 5
and `0` everywhere else (hence within `1e-3` of `-0.0981`); in general
gravity enters the next state exactly as the additive term `-g·Ts` on slot 5,
on top of the discretized linear part. -/
theorem C7_gravity_term_on_slot5 (p : QuadParam)
    (hg : p.g = 981 / 100) (hTs : p.inner_loop_h = 1 / 100)
    (hm : p.m = 3 / 100) (hk : p.k = 1 / 1000000) :
    ((quadcopter_dynamics (fun _ => 0) (fun _ => 0) p).1
        = fun i : Fin 12 => if (i : ℕ) = 5 then -(981 / 10000) else 0)
  ∧ |(quadcopter_dynamics (fun _ => 0) (fun _ => 0) p).1 ⟨5, by omega⟩
      + 981 / 10000| < 1 / 1000
  ∧ ∀ (x : Fin 12 → ℝ) (u : Fin 4 → ℝ) (i : Fin 12),
      (quadcopter_dynamics x u p).1 i
        = (quad_system x p).1.mulVec x i
          + (quad_system x p).2.1.mulVec (quad_u2 u p) i
          + (if (i : ℕ) = 5 then -p.g * p.inner_loop_h else 0) := by
  have hgen : ∀ (x : Fin 12 → ℝ) (u : Fin 4 → ℝ) (i : Fin 12),
      (quadcopter_dynamics x u p).1 i
        = (quad_system x p).1.mulVec x i
          + (quad_system x p).2.1.mulVec (quad_u2 u p) i
          + (if (i : ℕ) = 5 then -p.g * p.inner_loop_h else 0) := by
    intro x u i
    show (quad_system x p).1.mulVec x i + (quad_system x p).2.1.mulVec (quad_u2 u p) i
        + quad_G p.g i * p.inner_loop_h = _
    by_cases hi : (i : ℕ) = 5
    · simp [quad_G, hi]
    · simp [quad_G, hi]
  have hu0 : quad_u2 (fun _ => 0) p = (0 : Fin 4 → ℝ) := by
    funext j
    fin_cases j <;> simp [quad_u2, quad_T, quad_tau]
  have hzero : (fun _ : Fin 12 => (0 : ℝ)) = (0 : Fin 12 → ℝ) := rfl
  have hmain : (quadcopter_dynamics (fun _ => 0) (fun _ => 0) p).1
      = fun i : Fin 12 => if (i : ℕ) = 5 then -(981 / 10000) else 0 := by
    funext i
    rw [hgen (fun _ => 0) (fun _ => 0) i, hzero, hu0, Matrix.mulVec_zero,
      Matrix.mulVec_zero, hg, hTs]
    by_cases hi : (i : ℕ) = 5
    · simp only [hi, if_pos, Pi.zero_apply]
      norm_num
    · simp only [if_neg hi, Pi.zero_apply]
      norm_num
  refine ⟨hmain, ?_, hgen⟩
  rw [hmain]
  norm_num

/-- Reference parameter set for the C7 witness. -/
noncomputable def refParam : QuadParam :=
  ⟨1 / 100, 981 / 100, 3 / 100, 1 / 1000000, ![1, 1, 1], ![1, 1, 1], 1 / 10, 1 / 10⟩

/-- Witness for C7 at the reference parameter set. -/
theorem C7_witness :
    refParam.g = 981 / 100
  ∧ ((quadcopter_dynamics (fun _ => 0) (fun _ => 0) refParam).1
      = fun i : Fin 12 => if (i : ℕ) = 5 then -(981 / 10000) else 0) :=
  ⟨rfl, (C7_gravity_term_on_slot5 refParam rfl rfl rfl rfl).1⟩

end Crazylib
